import Mathlib

/-!
Verification of the deepchem fragment: the disk-backed sharded `Dataset`
abstraction and the `SingletaskToMultitask` task router (`deepchem/models/multitask.py`).

The `Dataset` class itself is not among the provided source files (only its test
suite `deepchem/datasets/tests/test_datasets.py` is), so the dataset layer below is
modelled from the specification's description of the Shard Store and of each
operation.  The task router is embedded directly from `multitask.py`.

Numeric array entries (numpy floats in the source) are modelled as rationals.
-/

namespace DeepChem

/-- Modelled from the spec: a Shard is "a fixed-size contiguous block of rows holding
feature array X (rows × feature-shape), label array y (rows × tasks), weight array w
(rows × tasks), and id array (rows of string identifiers)".  Each row of `X`/`y`/`w`
is a list of numbers; `ids` is the per-row identifier list. -/
structure Shard where
  X : List (List ℚ)
  y : List (List ℚ)
  w : List (List ℚ)
  ids : List String
  deriving Repr, DecidableEq

/-- Modelled from the spec: a Dataset is an "ordered sequence of Shards"; the
row order across shards is the dataset's canonical order. -/
structure Dataset where
  shards : List Shard
  deriving Repr, DecidableEq

/-- The invariant stated in the spec's data model: "all four arrays within a shard
share the same row count". -/
def Shard.Consistent (s : Shard) : Prop :=
  s.X.length = s.w.length ∧ s.y.length = s.w.length ∧ s.ids.length = s.w.length

instance (s : Shard) : Decidable s.Consistent := by
  unfold Shard.Consistent; infer_instance

/-- A dataset is consistent when every shard satisfies the shard invariant. -/
def Dataset.Consistent (d : Dataset) : Prop :=
  ∀ s ∈ d.shards, s.Consistent

instance (d : Dataset) : Decidable d.Consistent :=
  List.decidableBAll _ d.shards

/-- All feature rows of the dataset, in canonical order (concatenation of shards). -/
def Dataset.Xall (d : Dataset) : List (List ℚ) := (d.shards.map Shard.X).flatten

/-- All label rows of the dataset, in canonical order. -/
def Dataset.yall (d : Dataset) : List (List ℚ) := (d.shards.map Shard.y).flatten

/-- All weight rows of the dataset, in canonical order. -/
def Dataset.wall (d : Dataset) : List (List ℚ) := (d.shards.map Shard.w).flatten

/-- All row identifiers of the dataset, in canonical order. -/
def Dataset.idsAll (d : Dataset) : List String := (d.shards.map Shard.ids).flatten

/-- Modelled from the spec: `to_numpy()` "concatenates all shards in canonical order
into single X, y, w, ids arrays". -/
def Dataset.to_numpy (d : Dataset) :
    List (List ℚ) × List (List ℚ) × List (List ℚ) × List String :=
  (d.Xall, d.yall, d.wall, d.idsAll)

/-- Number of rows of the dataset (`len(dataset)`). -/
def Dataset.len (d : Dataset) : ℕ := d.Xall.length

theorem lengths_eq_of_consistent (ss : List Shard) (h : ∀ s ∈ ss, s.Consistent) :
    (ss.map Shard.X).flatten.length = (ss.map Shard.w).flatten.length ∧
    (ss.map Shard.y).flatten.length = (ss.map Shard.w).flatten.length ∧
    (ss.map Shard.ids).flatten.length = (ss.map Shard.w).flatten.length := by
  induction ss with
  | nil => simp
  | cons s rest ih =>
    obtain ⟨h1, h2, h3⟩ := h s (by simp)
    obtain ⟨i1, i2, i3⟩ := ih (fun s' hs' => h s' (List.mem_cons_of_mem _ hs'))
    simp only [List.map_cons, List.flatten_cons, List.length_append]
    omega

theorem Dataset.consistent_lengths (d : Dataset) (hc : d.Consistent) :
    d.Xall.length = d.wall.length ∧ d.yall.length = d.wall.length ∧
      d.idsAll.length = d.wall.length :=
  lengths_eq_of_consistent d.shards hc

/-- Fuel-driven worker for `chunk`: peels `size` elements per step.  The fuel only
bounds the recursion depth; any fuel at least the list length gives the same
result. -/
def chunkAux (size : ℕ) : ℕ → List α → List (List α)
  | _, [] => []
  | 0, _ :: _ => []
  | fuel + 1, a :: l => ((a :: l).take size) :: chunkAux size fuel ((a :: l).drop size)

/-- Splits a list into consecutive blocks of `size` elements; the final block may be
shorter.  This is the row-partitioning a shard store with shard size `size` induces. -/
def chunk (size : ℕ) (l : List α) : List (List α) :=
  if size = 0 then [] else chunkAux size l.length l

theorem chunkAux_congr (size : ℕ) (hs : size ≠ 0) :
    ∀ (f1 : ℕ) (l : List α) (f2 : ℕ), l.length ≤ f1 → l.length ≤ f2 →
      chunkAux size f1 l = chunkAux size f2 l := by
  intro f1
  induction f1 with
  | zero =>
    intro l f2 h1 _
    have : l = [] := List.length_eq_zero.mp (Nat.le_zero.mp h1)
    subst this
    cases f2 <;> rfl
  | succ g1 ih =>
    intro l f2 h1 h2
    cases l with
    | nil => cases f2 <;> rfl
    | cons a l' =>
      cases f2 with
      | zero => simp at h2
      | succ g2 =>
        show _ :: chunkAux size g1 _ = _ :: chunkAux size g2 _
        congr 1
        refine ih _ g2 ?_ ?_ <;>
          simp only [List.length_drop, List.length_cons] at * <;> omega

theorem chunk_nil (size : ℕ) : chunk size ([] : List α) = [] := by
  unfold chunk chunkAux
  simp

theorem chunk_zero (l : List α) : chunk 0 l = [] := by
  unfold chunk
  simp

theorem chunk_pos (size : ℕ) (l : List α) (hs : size ≠ 0) (hl : l ≠ []) :
    chunk size l = l.take size :: chunk size (l.drop size) := by
  obtain ⟨a, l', rfl⟩ : ∃ a l', l = a :: l' := by
    cases l with
    | nil => exact absurd rfl hl
    | cons a l' => exact ⟨a, l', rfl⟩
  conv_lhs => unfold chunk
  simp only [hs, if_false]
  show chunkAux size (l'.length + 1) (a :: l') = _
  unfold chunkAux
  conv_rhs => unfold chunk
  simp only [hs, if_false]
  congr 1
  refine chunkAux_congr size hs l'.length ((a :: l').drop size)
    ((a :: l').drop size).length ?_ le_rfl
  simp only [List.length_drop, List.length_cons]
  omega

theorem flatten_chunk_fuel (size : ℕ) (hs : size ≠ 0) :
    ∀ (n : ℕ) (l : List α), l.length ≤ n → (chunk size l).flatten = l := by
  intro n
  induction n with
  | zero =>
    intro l hl
    have : l = [] := List.length_eq_zero.mp (Nat.le_zero.mp hl)
    simp [this, chunk_nil]
  | succ n ih =>
    intro l hl
    by_cases hnil : l = []
    · simp [hnil, chunk_nil]
    · have hlen : l.length ≠ 0 := fun h => hnil (List.length_eq_zero.mp h)
      rw [chunk_pos size l hs hnil, List.flatten_cons,
        ih (l.drop size) (by simp only [List.length_drop]; omega),
        List.take_append_drop]

/-- Concatenating the blocks of `chunk` recovers the original list: resharding
preserves total row content and order. -/
theorem flatten_chunk (size : ℕ) (hs : size ≠ 0) (l : List α) :
    (chunk size l).flatten = l :=
  flatten_chunk_fuel size hs l.length l le_rfl

theorem chunk_length_congr_fuel (size : ℕ) :
    ∀ (n : ℕ) (l₁ : List α) (l₂ : List β), l₁.length ≤ n → l₁.length = l₂.length →
      (chunk size l₁).length = (chunk size l₂).length := by
  intro n
  induction n with
  | zero =>
    intro l₁ l₂ hn he
    have h1 : l₁ = [] := List.length_eq_zero.mp (Nat.le_zero.mp hn)
    have h2 : l₂ = [] := List.length_eq_zero.mp (he ▸ Nat.le_zero.mp hn)
    simp [h1, h2, chunk_nil]
  | succ n ih =>
    intro l₁ l₂ hn he
    by_cases hs : size = 0
    · simp [hs, chunk_zero]
    by_cases hnil : l₁ = []
    · have h2 : l₂ = [] := List.length_eq_zero.mp (he ▸ (by simp [hnil] : l₁.length = 0))
      simp [hnil, h2, chunk_nil]
    · have hnil₂ : l₂ ≠ [] := by
        intro h; rw [h] at he; simp [List.length_eq_zero] at he; exact hnil he
      have hlen : l₁.length ≠ 0 := fun h => hnil (List.length_eq_zero.mp h)
      rw [chunk_pos size l₁ hs hnil, chunk_pos size l₂ hs hnil₂]
      simp only [List.length_cons]
      rw [ih (l₁.drop size) (l₂.drop size) (by simp only [List.length_drop]; omega)
        (by simp only [List.length_drop, he])]

/-- The block structure produced by `chunk` depends only on the length of the list. -/
theorem chunk_length_congr (size : ℕ) (l₁ : List α) (l₂ : List β)
    (he : l₁.length = l₂.length) :
    (chunk size l₁).length = (chunk size l₂).length :=
  chunk_length_congr_fuel size l₁.length l₁ l₂ le_rfl he

theorem chunk_sizes_le_fuel (size : ℕ) (hs : size ≠ 0) :
    ∀ (n : ℕ) (l : List α), l.length ≤ n →
      ∀ c ∈ chunk size l, c.length ≤ size ∧ c ≠ [] := by
  intro n
  induction n with
  | zero =>
    intro l hn c hc
    have : l = [] := List.length_eq_zero.mp (Nat.le_zero.mp hn)
    rw [this, chunk_nil] at hc
    exact absurd hc (List.not_mem_nil c)
  | succ n ih =>
    intro l hn c hc
    by_cases hnil : l = []
    · rw [hnil, chunk_nil] at hc
      exact absurd hc (List.not_mem_nil c)
    · have hlen : l.length ≠ 0 := fun h => hnil (List.length_eq_zero.mp h)
      rw [chunk_pos size l hs hnil] at hc
      rcases List.mem_cons.mp hc with h | h
      · subst h
        constructor
        · simp [List.length_take]
        · intro h
          have := congrArg List.length h
          simp only [List.length_take, List.length_nil] at this
          omega
      · exact ih (l.drop size) (by simp only [List.length_drop]; omega) c h

/-- Every block of `chunk size l` is nonempty and no longer than `size`. -/
theorem chunk_sizes_le (size : ℕ) (hs : size ≠ 0) (l : List α) :
    ∀ c ∈ chunk size l, c.length ≤ size ∧ c ≠ [] :=
  chunk_sizes_le_fuel size hs l.length l le_rfl

theorem chunk_sizes_dvd_fuel (size : ℕ) (hs : size ≠ 0) :
    ∀ (n : ℕ) (l : List α), l.length ≤ n → size ∣ l.length →
      ∀ c ∈ chunk size l, c.length = size := by
  intro n
  induction n with
  | zero =>
    intro l hn _ c hc
    have : l = [] := List.length_eq_zero.mp (Nat.le_zero.mp hn)
    rw [this, chunk_nil] at hc
    exact absurd hc (List.not_mem_nil c)
  | succ n ih =>
    intro l hn hdvd c hc
    by_cases hnil : l = []
    · rw [hnil, chunk_nil] at hc
      exact absurd hc (List.not_mem_nil c)
    · have hlen : l.length ≠ 0 := fun h => hnil (List.length_eq_zero.mp h)
      have hge : size ≤ l.length := Nat.le_of_dvd (Nat.pos_of_ne_zero hlen) hdvd
      rw [chunk_pos size l hs hnil] at hc
      rcases List.mem_cons.mp hc with h | h
      · subst h
        simp [List.length_take]
        omega
      · refine ih (l.drop size) (by simp only [List.length_drop]; omega) ?_ c h
        simp only [List.length_drop]
        exact (Nat.dvd_sub' hdvd dvd_rfl)

/-- When `size` divides the number of rows, every block has exactly `size` rows. -/
theorem chunk_sizes_dvd (size : ℕ) (hs : size ≠ 0) (l : List α)
    (hdvd : size ∣ l.length) : ∀ c ∈ chunk size l, c.length = size :=
  chunk_sizes_dvd_fuel size hs l.length l le_rfl hdvd

theorem chunk_count_dvd_fuel (size : ℕ) (hs : size ≠ 0) :
    ∀ (n : ℕ) (l : List α), l.length ≤ n → size ∣ l.length →
      (chunk size l).length = l.length / size := by
  intro n
  induction n with
  | zero =>
    intro l hn _
    have : l = [] := List.length_eq_zero.mp (Nat.le_zero.mp hn)
    simp [this, chunk_nil]
  | succ n ih =>
    intro l hn hdvd
    by_cases hnil : l = []
    · simp [hnil, chunk_nil]
    · have hlen : l.length ≠ 0 := fun h => hnil (List.length_eq_zero.mp h)
      have hge : size ≤ l.length := Nat.le_of_dvd (Nat.pos_of_ne_zero hlen) hdvd
      rw [chunk_pos size l hs hnil]
      simp only [List.length_cons]
      rw [ih (l.drop size) (by simp only [List.length_drop]; omega)
        (by simp only [List.length_drop]; exact Nat.dvd_sub' hdvd dvd_rfl)]
      simp only [List.length_drop]
      obtain ⟨k, hk⟩ := hdvd
      have hk1 : k ≠ 0 := by
        intro h; rw [h, Nat.mul_zero] at hk; exact hlen hk
      obtain ⟨k', rfl⟩ : ∃ k', k = k' + 1 := ⟨k - 1, by omega⟩
      rw [hk, Nat.mul_add, Nat.mul_one, Nat.add_sub_cancel,
        Nat.add_div_right _ (Nat.pos_of_ne_zero hs)]

/-- When `size` divides the number of rows, `chunk` produces exactly
`length / size` blocks. -/
theorem chunk_count_dvd (size : ℕ) (hs : size ≠ 0) (l : List α)
    (hdvd : size ∣ l.length) : (chunk size l).length = l.length / size :=
  chunk_count_dvd_fuel size hs l.length l le_rfl hdvd

/-- Reassembles shards from the blockwise partitions of the four arrays: the `i`-th
shard holds the `i`-th block of each array.  Stops when any array runs out of blocks
(under the shard invariant all four block lists have equal length). -/
def mkShards : List (List (List ℚ)) → List (List (List ℚ)) → List (List (List ℚ)) →
    List (List String) → List Shard
  | xc :: xs, yc :: ys, wc :: ws, ic :: is => ⟨xc, yc, wc, ic⟩ :: mkShards xs ys ws is
  | _, _, _, _ => []

/-- Modelled from the spec: `reshard(shard_size)` "rewrites storage into shards of the
requested size while preserving total row content and order" — the concatenated rows
of each of the four arrays are re-partitioned into consecutive blocks of `shard_size`
rows, which become the new shards. -/
def Dataset.reshard (d : Dataset) (shard_size : ℕ) : Dataset :=
  ⟨mkShards (chunk shard_size d.Xall) (chunk shard_size d.yall)
    (chunk shard_size d.wall) (chunk shard_size d.idsAll)⟩

/-- Equality of the four concatenated array lengths; follows from the per-shard
invariant and is preserved by resharding. -/
def Dataset.GloballyConsistent (d : Dataset) : Prop :=
  d.yall.length = d.Xall.length ∧ d.wall.length = d.Xall.length ∧
    d.idsAll.length = d.Xall.length

theorem Dataset.globallyConsistent_of_consistent (d : Dataset) (hc : d.Consistent) :
    d.GloballyConsistent := by
  obtain ⟨h1, h2, h3⟩ := d.consistent_lengths hc
  exact ⟨by omega, by omega, by omega⟩

theorem mkShards_map_X :
    ∀ (a b c : List (List (List ℚ))) (e : List (List String)),
      b.length = a.length → c.length = a.length → e.length = a.length →
      (mkShards a b c e).map Shard.X = a := by
  intro a
  induction a with
  | nil =>
    intro b c e hb hc he
    rw [List.length_nil, List.length_eq_zero] at hb hc he
    subst hb; subst hc; subst he
    rfl
  | cons x xs ih =>
    intro b c e hb hc he
    cases b with
    | nil => simp at hb
    | cons yc ys =>
      cases c with
      | nil => simp at hc
      | cons wc ws =>
        cases e with
        | nil => simp at he
        | cons ic is =>
          simp only [List.length_cons, Nat.add_right_cancel_iff] at hb hc he
          simp only [mkShards, List.map_cons]
          rw [ih ys ws is hb hc he]

theorem mkShards_map_y :
    ∀ (a b c : List (List (List ℚ))) (e : List (List String)),
      b.length = a.length → c.length = a.length → e.length = a.length →
      (mkShards a b c e).map Shard.y = b := by
  intro a
  induction a with
  | nil =>
    intro b c e hb hc he
    rw [List.length_nil, List.length_eq_zero] at hb hc he
    subst hb; subst hc; subst he
    rfl
  | cons x xs ih =>
    intro b c e hb hc he
    cases b with
    | nil => simp at hb
    | cons yc ys =>
      cases c with
      | nil => simp at hc
      | cons wc ws =>
        cases e with
        | nil => simp at he
        | cons ic is =>
          simp only [List.length_cons, Nat.add_right_cancel_iff] at hb hc he
          simp only [mkShards, List.map_cons]
          rw [ih ys ws is hb hc he]

theorem mkShards_map_w :
    ∀ (a b c : List (List (List ℚ))) (e : List (List String)),
      b.length = a.length → c.length = a.length → e.length = a.length →
      (mkShards a b c e).map Shard.w = c := by
  intro a
  induction a with
  | nil =>
    intro b c e hb hc he
    rw [List.length_nil, List.length_eq_zero] at hb hc he
    subst hb; subst hc; subst he
    rfl
  | cons x xs ih =>
    intro b c e hb hc he
    cases b with
    | nil => simp at hb
    | cons yc ys =>
      cases c with
      | nil => simp at hc
      | cons wc ws =>
        cases e with
        | nil => simp at he
        | cons ic is =>
          simp only [List.length_cons, Nat.add_right_cancel_iff] at hb hc he
          simp only [mkShards, List.map_cons]
          rw [ih ys ws is hb hc he]

theorem mkShards_map_ids :
    ∀ (a b c : List (List (List ℚ))) (e : List (List String)),
      b.length = a.length → c.length = a.length → e.length = a.length →
      (mkShards a b c e).map Shard.ids = e := by
  intro a
  induction a with
  | nil =>
    intro b c e hb hc he
    rw [List.length_nil, List.length_eq_zero] at hb hc he
    subst hb; subst hc; subst he
    rfl
  | cons x xs ih =>
    intro b c e hb hc he
    cases b with
    | nil => simp at hb
    | cons yc ys =>
      cases c with
      | nil => simp at hc
      | cons wc ws =>
        cases e with
        | nil => simp at he
        | cons ic is =>
          simp only [List.length_cons, Nat.add_right_cancel_iff] at hb hc he
          simp only [mkShards, List.map_cons]
          rw [ih ys ws is hb hc he]

/-- Resharding leaves each of the four concatenated arrays unchanged. -/
theorem Dataset.reshard_arrays (d : Dataset) (S : ℕ) (hS : S ≠ 0)
    (hg : d.GloballyConsistent) :
    (d.reshard S).Xall = d.Xall ∧ (d.reshard S).yall = d.yall ∧
    (d.reshard S).wall = d.wall ∧ (d.reshard S).idsAll = d.idsAll := by
  obtain ⟨h1, h2, h3⟩ := hg
  have cy : (chunk S d.yall).length = (chunk S d.Xall).length :=
    chunk_length_congr S d.yall d.Xall h1
  have cw : (chunk S d.wall).length = (chunk S d.Xall).length :=
    chunk_length_congr S d.wall d.Xall h2
  have ci : (chunk S d.idsAll).length = (chunk S d.Xall).length :=
    chunk_length_congr S d.idsAll d.Xall h3
  refine ⟨?_, ?_, ?_, ?_⟩
  · show ((mkShards _ _ _ _).map Shard.X).flatten = _
    rw [mkShards_map_X _ _ _ _ cy cw ci, flatten_chunk S hS]
  · show ((mkShards _ _ _ _).map Shard.y).flatten = _
    rw [mkShards_map_y _ _ _ _ cy cw ci, flatten_chunk S hS]
  · show ((mkShards _ _ _ _).map Shard.w).flatten = _
    rw [mkShards_map_w _ _ _ _ cy cw ci, flatten_chunk S hS]
  · show ((mkShards _ _ _ _).map Shard.ids).flatten = _
    rw [mkShards_map_ids _ _ _ _ cy cw ci, flatten_chunk S hS]

theorem Dataset.reshard_globallyConsistent (d : Dataset) (S : ℕ) (hS : S ≠ 0)
    (hg : d.GloballyConsistent) : (d.reshard S).GloballyConsistent := by
  obtain ⟨e1, e2, e3, e4⟩ := d.reshard_arrays S hS hg
  exact ⟨by rw [e1, e2]; exact hg.1, by rw [e1, e3]; exact hg.2.1,
    by rw [e1, e4]; exact hg.2.2⟩

/-- Rows of `l` at positions `indices`, in the order given (out-of-range positions
yield the default row; the claims only use in-range indices). -/
def pickRows (indices : List ℕ) (dflt : α) (l : List α) : List α :=
  indices.map (fun i => l.getD i dflt)

/-- The directory-indexed collection of datasets on disk. -/
def Store := String → Option Dataset

/-- Modelled from the spec: `select(new_dir, indices)` "produces a new Dataset at
`new_dir` containing exactly the rows at `indices`, in the given order; does not
mutate the source".  The new dataset is written as a single shard at `new_dir`; every
other directory of the store is untouched. -/
def select (σ : Store) (src new_dir : String) (indices : List ℕ) : Store :=
  fun dir =>
    if dir = new_dir then
      match σ src with
      | some d => some ⟨[⟨pickRows indices [] d.Xall, pickRows indices [] d.yall,
          pickRows indices [] d.wall, pickRows indices "" d.idsAll⟩]⟩
      | none => none
    else σ dir

/-- Keeps the elements of `l` at positions where `mask` is `true`. -/
def maskFilter : List Bool → List α → List α
  | true :: bs, a :: as => a :: maskFilter bs as
  | false :: bs, _ :: as => maskFilter bs as
  | _, _ => []

/-- The per-row inclusion mask of task `t` for a weight array: a row is kept when its
weight in column `t` is nonzero (the spec's literal nonzero test — negative weights
are included). -/
def taskMask (w : List (List ℚ)) (t : ℕ) : List Bool :=
  w.map (fun r => decide (r.getD t 0 ≠ 0))

/-- Narrows a label/weight row to the single column `t`. -/
def narrowRow (t : ℕ) (r : List ℚ) : List ℚ := [r.getD t 0]

/-- The task-`t` slice of one shard: rows with nonzero task-`t` weight, `y`/`w`
narrowed to column `t`, `X`/`ids` unchanged. -/
def Shard.singletask (s : Shard) (t : ℕ) : Shard :=
  ⟨maskFilter (taskMask s.w t) s.X,
   (maskFilter (taskMask s.w t) s.y).map (narrowRow t),
   (maskFilter (taskMask s.w t) s.w).map (narrowRow t),
   maskFilter (taskMask s.w t) s.ids⟩

/-- Modelled from the spec: `to_singletask(dirs)` "for each task, builds a new Dataset
restricted to rows with nonzero weight for that task, with y/w collapsed to a single
column; returns one Dataset per task, written to the corresponding provided
directory".  The disk-backed store is processed shard by shard, preserving canonical
row order; the `t`-th returned dataset (one per provided directory) is the task-`t`
slice. -/
def Dataset.to_singletask (d : Dataset) (task_dirs : List String) : List Dataset :=
  (List.range task_dirs.length).map
    (fun t => Dataset.mk (d.shards.map (fun s => s.singletask t)))

/-- Modelled from the spec: `iterbatches(batch_size)` "produces a lazy, finite,
restartable sequence of (X, y, w, ids) batches of the requested size, drawn in
canonical order": the run of batches is the partition of the rows into consecutive
blocks of `batch_size` (each batch reuses `Shard` as the (X, y, w, ids) quadruple). -/
def Dataset.iterbatches (d : Dataset) (batch_size : ℕ) : List Shard :=
  (d.reshard batch_size).shards

/-- Modelled from the spec: `get_ids()` reads the identifiers shard by shard, in the
dataset's canonical row order. -/
def Dataset.get_ids (d : Dataset) : List String := (d.shards.map Shard.ids).flatten

/-- The `j`-th column of a row-major array, reading each row's `j`-th entry. -/
def colVals (rows : List (List ℚ)) (j : ℕ) : List ℚ := rows.map (fun r => r.getD j 0)

/-- Number of feature columns (the width of the feature rows). -/
def Dataset.n_features (d : Dataset) : ℕ := (d.Xall.headD []).length

/-- Number of tasks (the width of the label rows). -/
def Dataset.n_tasks (d : Dataset) : ℕ := (d.yall.headD []).length

/-- Modelled from the spec: `get_statistics()` accumulates the per-feature sums over
the shard store, one shard at a time; the mean of column `j` is the accumulated sum
over the total row count. -/
def Dataset.XmeanCol (d : Dataset) (j : ℕ) : ℚ :=
  (d.shards.map (fun s => (colVals s.X j).sum)).sum / d.len

/-- Modelled from the spec: the population variance (the squared standard deviation
reported by `get_statistics()`) of feature column `j`, computed by accumulating
per-shard sums of squares: mean of squares minus square of mean. -/
def Dataset.XvarCol (d : Dataset) (j : ℕ) : ℚ :=
  (d.shards.map (fun s => ((colVals s.X j).map (fun q => q ^ 2)).sum)).sum / d.len
    - d.XmeanCol j ^ 2

/-- Per-task label mean, accumulated shard by shard (see `Dataset.XmeanCol`). -/
def Dataset.ymeanCol (d : Dataset) (j : ℕ) : ℚ :=
  (d.shards.map (fun s => (colVals s.y j).sum)).sum / d.len

/-- Per-task label population variance, accumulated shard by shard
(see `Dataset.XvarCol`). -/
def Dataset.yvarCol (d : Dataset) (j : ℕ) : ℚ :=
  (d.shards.map (fun s => ((colVals s.y j).map (fun q => q ^ 2)).sum)).sum / d.len
    - d.ymeanCol j ^ 2

/-- Modelled from the spec: `get_statistics()` "returns per-feature/per-task mean and
standard deviation computed over the full (concatenated) dataset".  The standard
deviation of a column is an irrational square root, so the function returns the means
together with the variances (the squared standard deviations); the statistics
theorems state the standard-deviation claim through `Real.sqrt` of these variances. -/
def Dataset.get_statistics (d : Dataset) : List ℚ × List ℚ × List ℚ × List ℚ :=
  ((List.range d.n_features).map d.XmeanCol,
   (List.range d.n_features).map d.XvarCol,
   (List.range d.n_tasks).map d.ymeanCol,
   (List.range d.n_tasks).map d.yvarCol)

/-- Stated from the claim: the population mean of a list of numbers (`np.mean`). -/
def popMean (l : List ℚ) : ℚ := l.sum / l.length

/-- Stated from the claim: the population variance of a list of numbers — the mean of
the squared deviations from the mean, i.e. the square of `np.std`. -/
def popVar (l : List ℚ) : ℚ := ((l.map (fun q => (q - popMean l) ^ 2)).sum) / l.length

/-- A single-task model as produced by the router's `model_builder` capability:
`reloadResult` is the outcome of `reload()` (reloading a persisted model can raise,
and the returned model is the reloaded one on success), `predictOnBatch` is
`predict_on_batch(X)` (one prediction per row of the batch) and `predictDs` is
`predict(dataset, [])` (one prediction per dataset row). -/
structure STModel where
  reloadResult : Except String Unit
  predictOnBatch : List (List ℚ) → List ℚ
  predictDs : Dataset → List ℚ

/-- A placeholder model, used only to read off the model a successful fetch
returned. -/
def STModel.default : STModel := ⟨Except.ok (), fun _ => [], fun _ => []⟩

/-- Embeds the state set up by `SingletaskToMultitask.__init__` (multitask.py lines
21-46): the task list, the per-task type mapping, the hyperparameters (of an abstract
type `P`), the base model directory, the in-memory model map `task_models`, the
per-task model directories `task_model_dirs`, the `model_builder` capability and the
`store_in_memory` flag.  `model_builder` receives the singleton task list, the
singleton task-type mapping, the hyperparameters and the task's model directory,
exactly as at lines 97-100 (its `verbosity` argument, used only for logging, is
dropped). -/
structure SingletaskToMultitask (P : Type) where
  tasks : List String
  task_types : String → String
  model_params : P
  model_dir : String
  task_models : String → STModel
  task_model_dirs : String → String
  model_builder : List String → List (String × String) → P → String → STModel
  store_in_memory : Bool

variable {P : Type}

/-- Embeds the model-fetch step shared by the four predict methods of
`SingletaskToMultitask` (multitask.py lines 92-101, 113-122, 135-143 and 155-163):
with `store_in_memory` the model comes from the in-memory `task_models` map;
otherwise the model is rebuilt by `model_builder` and `reload()`ed, and a reload
error propagates. -/
def SingletaskToMultitask.getTaskModel (m : SingletaskToMultitask P) (task : String) :
    Except String STModel :=
  if m.store_in_memory then Except.ok (m.task_models task)
  else
    let tm := m.model_builder [task] [(task, m.task_types task)] m.model_params
      (m.task_model_dirs task)
    match tm.reloadResult with
    | Except.ok _ => Except.ok tm
    | Except.error e => Except.error e

/-- The model a successful `getTaskModel` fetch returns (the placeholder model on a
fetch error; only used to state conclusions under a no-error hypothesis). -/
def SingletaskToMultitask.fetchModel (m : SingletaskToMultitask P) (task : String) :
    STModel :=
  match m.getTaskModel task with
  | Except.ok tm => tm
  | Except.error _ => STModel.default

/-- An `n × k` zero matrix (`np.zeros((n, k))`), as a row-major list of rows. -/
def zeros (n k : ℕ) : List (List ℚ) := List.replicate n (List.replicate k 0)

/-- Column assignment `Y[:, j] = col`: row `i` of `Y` receives entry `i` of `col` at
position `j`. -/
def setCol (Y : List (List ℚ)) (j : ℕ) (col : List ℚ) : List (List ℚ) :=
  List.zipWith (fun row v => row.set j v) Y col

/-- Embeds `SingletaskToMultitask.predict_on_batch` (multitask.py lines 85-104): a
zero matrix of shape `(n_samples, n_tasks)` is filled column by column, column `ind`
with the single-task prediction of task `tasks[ind]` on `X`; fetching the model of a task can
fail (a reload error), in which case the error propagates. -/
def SingletaskToMultitask.predict_on_batch (m : SingletaskToMultitask P)
    (X : List (List ℚ)) : Except String (List (List ℚ)) :=
  m.tasks.enum.foldlM
    (fun Y it => do
      let tm ← m.getTaskModel it.2
      pure (setCol Y it.1 (tm.predictOnBatch X)))
    (zeros X.length m.tasks.length)

/-- Modelled from the spec: `undo_transforms` (imported from `deepchem.transformers`,
which is not among the shown sources) "applies inverse-transform post-processing" to
the prediction matrix, undoing the most recently applied transformer first.  Each
transformer is represented by its inverse action on the matrix. -/
def undo_transforms (y : List (List ℚ))
    (transformers : List (List (List ℚ) → List (List ℚ))) : List (List ℚ) :=
  transformers.reverse.foldl (fun acc t => t acc) y

/-- Embeds `SingletaskToMultitask.predict` (multitask.py lines 106-126): the
`(len(dataset), n_tasks)` matrix is assembled column by column from the per-task
`predict(dataset, [])` results, then `undo_transforms` is applied with the supplied
transformers. -/
def SingletaskToMultitask.predict (m : SingletaskToMultitask P) (dataset : Dataset)
    (transformers : List (List (List ℚ) → List (List ℚ))) :
    Except String (List (List ℚ)) := do
  let y_pred ← m.tasks.enum.foldlM
    (fun Y it => do
      let tm ← m.getTaskModel it.2
      pure (setCol Y it.1 (tm.predictDs dataset)))
    (zeros dataset.len m.tasks.length)
  pure (undo_transforms y_pred transformers)

/-- Embeds `SingletaskToMultitask.save` (multitask.py lines 169-172): the body is
`pass` ("Saving is done on-the-fly"), so the call returns without error and the
router state is unchanged. -/
def SingletaskToMultitask.save (m : SingletaskToMultitask P) :
    SingletaskToMultitask P := m

/-- Embeds `SingletaskToMultitask.reload` (multitask.py lines 174-177): the body is
`pass` ("Loading is done on-the-fly"), so the call returns without error and the
router state is unchanged. -/
def SingletaskToMultitask.reload (m : SingletaskToMultitask P) :
    SingletaskToMultitask P := m

/-- Python runtime errors relevant to `_create_task_datasets`. -/
inductive PyErr
  | nameErr (msg : String)
  deriving Repr, DecidableEq

/-- Embeds `SingletaskToMultitask._create_task_datasets` (multitask.py lines 49-63).
The filesystem is modelled by the list of already-existing directory paths.  For each
task in order, the directory `model_dir/<task>_data` is prepared; when it already
exists the code evaluates `shutil.rmtree(task_data_dir)`, but `shutil` is never
imported in multitask.py (its imports are `os`, `numpy`, `log`, `Model`, `sklearn`
and `undo_transforms`), so that branch raises `NameError` (name `shutil` is not
defined).  Only after every directory is prepared is
`dataset.to_singletask(task_data_dirs)` invoked. -/
def createTaskDirs (m : SingletaskToMultitask P) (existing : List String) :
    List String → List String → Except PyErr (List String)
  | acc, [] => pure acc
  | acc, task :: rest =>
    let task_data_dir := m.model_dir ++ "/" ++ task ++ "_data"
    if task_data_dir ∈ existing then
      Except.error (PyErr.nameErr "name shutil is not defined")
    else
      createTaskDirs m existing (acc ++ [task_data_dir]) rest

/-- The loop body of `_create_task_datasets` as described above: directories are
prepared in task order, accumulating `task_data_dirs`; the final step hands the
accumulated directories to `to_singletask`. -/
def SingletaskToMultitask.create_task_datasets (m : SingletaskToMultitask P)
    (existing : List String) (dataset : Dataset) : Except PyErr (List Dataset) := do
  let task_data_dirs ← createTaskDirs m existing [] m.tasks
  pure (dataset.to_singletask task_data_dirs)

/-- The pure column-assembly loop underlying the predict methods: starting at column
`k`, writes `fetchCol t` into successive columns for the tasks `ts`. -/
def assembleFrom (fetchCol : String → List ℚ) (k : ℕ) (ts : List String)
    (Y : List (List ℚ)) : List (List ℚ) :=
  match ts with
  | [] => Y
  | t :: rest => assembleFrom fetchCol (k + 1) rest (setCol Y k (fetchCol t))

/-- The common fetch-and-fill loop of the predict methods, over an already enumerated
task list: each step fetches the task's model (possibly failing) and writes the
model's column into the accumulated matrix. -/
def predictFold (m : SingletaskToMultitask P) (col : STModel → List ℚ)
    (ts : List (ℕ × String)) (Y : List (List ℚ)) : Except String (List (List ℚ)) :=
  ts.foldlM
    (fun Y it => do
      let tm ← m.getTaskModel it.2
      pure (setCol Y it.1 (col tm)))
    Y

/-- The prediction matrix `predict_on_batch` assembles when every task model is
fetched successfully: column `ind` holds the predictions of task `tasks[ind]` on `X`. -/
def SingletaskToMultitask.assembled_on_batch (m : SingletaskToMultitask P)
    (X : List (List ℚ)) : List (List ℚ) :=
  assembleFrom (fun t => (m.fetchModel t).predictOnBatch X) 0 m.tasks
    (zeros X.length m.tasks.length)

/-- The prediction matrix `predict` assembles (before `undo_transforms`) when every
task model is fetched successfully. -/
def SingletaskToMultitask.assembledDs (m : SingletaskToMultitask P) (d : Dataset) :
    List (List ℚ) :=
  assembleFrom (fun t => (m.fetchModel t).predictDs d) 0 m.tasks
    (zeros d.len m.tasks.length)

/-! Concrete instances, used by the closed instance checks of the theorems below. -/

/-- A concrete shard with two rows, two features and one task. -/
def exShard1 : Shard :=
  ⟨[[1, 2], [3, 4]], [[10], [20]], [[1], [1]], ["a", "b"]⟩

/-- A concrete shard with one row, two features and one task. -/
def exShard2 : Shard :=
  ⟨[[5, 6]], [[30]], [[0]], ["c"]⟩

/-- A three-row, two-shard dataset. -/
def exDataset : Dataset := ⟨[exShard1, exShard2]⟩

/-- A four-row, two-shard dataset with two tasks and mixed zero/nonzero weights. -/
def exDataset4 : Dataset :=
  ⟨[⟨[[1], [2]], [[1, 2], [3, 4]], [[1, 0], [0, 2]], ["a", "b"]⟩,
    ⟨[[3], [4]], [[5, 6], [7, 8]], [[-1, 0], [1, 1]], ["c", "d"]⟩]⟩

/-- A store holding `exDataset` at directory `src`. -/
def exStore : Store := fun dir => if dir = "src" then some exDataset else none

/-- A concrete single-task model: predicts the first feature of each row. -/
def exModelA : STModel :=
  ⟨Except.ok (), fun X => X.map (fun r => r.getD 0 0),
   fun d => d.Xall.map (fun r => r.getD 0 0)⟩

/-- A concrete single-task model: predicts the first feature plus one. -/
def exModelB : STModel :=
  ⟨Except.ok (), fun X => X.map (fun r => r.getD 0 0 + 1),
   fun d => d.Xall.map (fun r => r.getD 0 0 + 1)⟩

/-- A model whose persisted copy is absent: `reload()` raises. -/
def exModelBad : STModel :=
  ⟨Except.error "no persisted model", fun _ => [], fun _ => []⟩

/-- A concrete two-task router keeping its models in memory. -/
def exRouterMem : SingletaskToMultitask Unit where
  tasks := ["t0", "t1"]
  task_types := fun _ => "Classification"
  model_params := ()
  model_dir := "m"
  task_models := fun task => if task = "t0" then exModelA else exModelB
  task_model_dirs := fun task => "m/" ++ task
  model_builder := fun ts _ _ _ => if ts.getD 0 "" = "t0" then exModelA else exModelBad
  store_in_memory := true

/-- The same router reconstructing models from disk; the reload of task `t1` fails. -/
def exRouterDisk : SingletaskToMultitask Unit :=
  { exRouterMem with store_in_memory := false }

/-- A concrete two-row prediction batch. -/
def exX : List (List ℚ) := [[7, 8], [9, 10]]

/-! Theorems. -/

/-- **C1**: for every consistent dataset and all positive shard sizes S1, S2, calling
`reshard(S1)`, then `reshard(S2)`, then `to_numpy()` yields X, y, w, ids arrays
identical to those `to_numpy()` returned before any resharding. -/
theorem reshard_roundtrip (d : Dataset) (S1 S2 : ℕ) (h1 : S1 ≠ 0) (h2 : S2 ≠ 0)
    (hc : d.Consistent) : ((d.reshard S1).reshard S2).to_numpy = d.to_numpy := by
  have hg := d.globallyConsistent_of_consistent hc
  obtain ⟨a1, a2, a3, a4⟩ := d.reshard_arrays S1 h1 hg
  have hg1 := d.reshard_globallyConsistent S1 h1 hg
  obtain ⟨b1, b2, b3, b4⟩ := (d.reshard S1).reshard_arrays S2 h2 hg1
  simp only [Dataset.to_numpy]
  rw [b1, b2, b3, b4, a1, a2, a3, a4]

/-- Closed instance of `reshard_roundtrip` at a concrete dataset and shard sizes. -/
theorem reshard_roundtrip_check :
    ((exDataset.reshard 2).reshard 3).to_numpy = exDataset.to_numpy :=
  reshard_roundtrip exDataset 2 3 (by decide) (by decide) (by decide)

/-- **C2**: `select(new_dir, indices)` on a store holding `d` at `src` produces at
`new_dir` a dataset whose `to_numpy()` is the four arrays of `d` indexed by
`indices`, in the given order; the source dataset and every other directory are
untouched. -/
theorem select_spec (σ : Store) (src new_dir : String) (indices : List ℕ)
    (d : Dataset) (hsrc : σ src = some d) (hne : src ≠ new_dir)
    (_hrange : ∀ i ∈ indices, i < d.len) :
    (∃ d', select σ src new_dir indices new_dir = some d' ∧
        d'.to_numpy = (pickRows indices [] d.Xall, pickRows indices [] d.yall,
          pickRows indices [] d.wall, pickRows indices "" d.idsAll)) ∧
    select σ src new_dir indices src = some d ∧
    ∀ dir, dir ≠ new_dir → select σ src new_dir indices dir = σ dir := by
  refine ⟨⟨⟨[⟨pickRows indices [] d.Xall, pickRows indices [] d.yall,
      pickRows indices [] d.wall, pickRows indices "" d.idsAll⟩]⟩, ?_, ?_⟩, ?_, ?_⟩
  · simp [select, hsrc]
  · simp [Dataset.to_numpy, Dataset.Xall, Dataset.yall, Dataset.wall, Dataset.idsAll]
  · simp [select, hne, hsrc]
  · intro dir hdir
    simp [select, hdir]

/-- Closed instance of `select_spec` at a concrete store, dataset and index list. -/
theorem select_spec_check :
    (∃ d', select exStore "src" "new" [0, 2] "new" = some d' ∧
        d'.to_numpy = (pickRows [0, 2] [] exDataset.Xall,
          pickRows [0, 2] [] exDataset.yall, pickRows [0, 2] [] exDataset.wall,
          pickRows [0, 2] "" exDataset.idsAll)) ∧
    select exStore "src" "new" [0, 2] "src" = some exDataset ∧
    ∀ dir, dir ≠ "new" → select exStore "src" "new" [0, 2] dir = exStore dir :=
  select_spec exStore "src" "new" [0, 2] exDataset (by decide) (by decide) (by decide)

theorem maskFilter_append :
    ∀ (m1 : List Bool) (l1 : List α) (m2 : List Bool) (l2 : List α),
      m1.length = l1.length →
      maskFilter (m1 ++ m2) (l1 ++ l2) = maskFilter m1 l1 ++ maskFilter m2 l2 := by
  intro m1
  induction m1 with
  | nil =>
    intro l1 m2 l2 h
    have : l1 = [] := List.length_eq_zero.mp (by simpa using h.symm)
    subst this
    rfl
  | cons b bs ih =>
    intro l1 m2 l2 h
    cases l1 with
    | nil => simp at h
    | cons a as =>
      simp only [List.cons_append]
      cases b
      · show maskFilter (false :: (bs ++ m2)) (a :: (as ++ l2)) = _
        simp only [maskFilter]
        exact ih as m2 l2 (by simpa using h)
      · show maskFilter (true :: (bs ++ m2)) (a :: (as ++ l2)) = _
        simp only [maskFilter, List.cons_append]
        rw [ih as m2 l2 (by simpa using h)]

theorem taskMask_append (t : ℕ) (w1 w2 : List (List ℚ)) :
    taskMask (w1 ++ w2) t = taskMask w1 t ++ taskMask w2 t := by
  unfold taskMask
  exact List.map_append _ _ _

theorem taskMask_length (t : ℕ) (w : List (List ℚ)) :
    (taskMask w t).length = w.length := List.length_map _ _

/-- Slicing each shard and concatenating equals slicing the concatenation: the
per-shard task slice assembles the global mask-filtered array. -/
theorem maskFilter_shards (t : ℕ) (proj : Shard → List α) :
    ∀ ss : List Shard, (∀ s ∈ ss, (proj s).length = s.w.length) →
      (ss.map (fun s => maskFilter (taskMask s.w t) (proj s))).flatten
        = maskFilter (taskMask (ss.map Shard.w).flatten t) ((ss.map proj).flatten) := by
  intro ss
  induction ss with
  | nil => intro _; rfl
  | cons s rest ih =>
    intro h
    simp only [List.map_cons, List.flatten_cons]
    rw [taskMask_append, maskFilter_append _ _ _ _
      (by rw [taskMask_length]; exact (h s (by simp)).symm)]
    rw [ih (fun s' hs' => h s' (List.mem_cons_of_mem _ hs'))]

/-- **C3**: for each task index `t`, the `t`-th dataset `to_singletask(dirs)` returns
holds exactly the rows of the source whose weight in column `t` is nonzero (negative
weights included), in source order, with `y` and `w` narrowed to column `t` and
`ids`/`X` unchanged for those rows. -/
theorem to_singletask_spec (d : Dataset) (task_dirs : List String) (t : ℕ)
    (ht : t < task_dirs.length) (hc : d.Consistent) :
    (d.to_singletask task_dirs).length = task_dirs.length ∧
    ((d.to_singletask task_dirs).getD t ⟨[]⟩).to_numpy
      = (maskFilter (taskMask d.wall t) d.Xall,
         (maskFilter (taskMask d.wall t) d.yall).map (narrowRow t),
         (maskFilter (taskMask d.wall t) d.wall).map (narrowRow t),
         maskFilter (taskMask d.wall t) d.idsAll) := by
  refine ⟨by simp [Dataset.to_singletask], ?_⟩
  have hlen : t < ((List.range task_dirs.length).map
      (fun t => Dataset.mk (d.shards.map (fun s => s.singletask t)))).length := by
    simpa using ht
  have hget : (d.to_singletask task_dirs).getD t ⟨[]⟩
      = ⟨d.shards.map (fun s => s.singletask t)⟩ := by
    unfold Dataset.to_singletask
    rw [List.getD_eq_getElem?_getD, List.getElem?_eq_getElem hlen]
    simp
  rw [hget]
  have hX : ∀ s ∈ d.shards, (Shard.X s).length = s.w.length :=
    fun s hs => (hc s hs).1
  have hy : ∀ s ∈ d.shards, (Shard.y s).length = s.w.length :=
    fun s hs => (hc s hs).2.1
  have hw : ∀ s ∈ d.shards, (Shard.w s).length = s.w.length := fun s _ => rfl
  have hids : ∀ s ∈ d.shards, (Shard.ids s).length = s.w.length :=
    fun s hs => (hc s hs).2.2
  refine Prod.ext ?_ (Prod.ext ?_ (Prod.ext ?_ ?_))
  · show ((d.shards.map (fun s => s.singletask t)).map Shard.X).flatten = _
    rw [List.map_map]
    exact maskFilter_shards t Shard.X d.shards hX
  · show ((d.shards.map (fun s => s.singletask t)).map Shard.y).flatten = _
    rw [List.map_map]
    have step : d.shards.map (Shard.y ∘ fun s => s.singletask t)
        = (d.shards.map (fun s => maskFilter (taskMask s.w t) s.y)).map
            (List.map (narrowRow t)) := by
      rw [List.map_map]
      rfl
    rw [step, ← List.map_flatten, maskFilter_shards t Shard.y d.shards hy]
    rfl
  · show ((d.shards.map (fun s => s.singletask t)).map Shard.w).flatten = _
    rw [List.map_map]
    have step : d.shards.map (Shard.w ∘ fun s => s.singletask t)
        = (d.shards.map (fun s => maskFilter (taskMask s.w t) s.w)).map
            (List.map (narrowRow t)) := by
      rw [List.map_map]
      rfl
    rw [step, ← List.map_flatten, maskFilter_shards t Shard.w d.shards hw]
    rfl
  · show ((d.shards.map (fun s => s.singletask t)).map Shard.ids).flatten = _
    rw [List.map_map]
    exact maskFilter_shards t Shard.ids d.shards hids

/-- Closed instance of `to_singletask_spec` at a concrete two-task dataset. -/
theorem to_singletask_spec_check :
    (exDataset4.to_singletask ["d0", "d1"]).length = 2 ∧
    ((exDataset4.to_singletask ["d0", "d1"]).getD 0 ⟨[]⟩).to_numpy
      = (maskFilter (taskMask exDataset4.wall 0) exDataset4.Xall,
         (maskFilter (taskMask exDataset4.wall 0) exDataset4.yall).map (narrowRow 0),
         (maskFilter (taskMask exDataset4.wall 0) exDataset4.wall).map (narrowRow 0),
         maskFilter (taskMask exDataset4.wall 0) exDataset4.idsAll) :=
  to_singletask_spec exDataset4 ["d0", "d1"] 0 (by decide) (by decide)

theorem sum_sq_dev (mu : ℚ) :
    ∀ l : List ℚ, (l.map (fun q => (q - mu) ^ 2)).sum
      = (l.map (fun q => q ^ 2)).sum - 2 * mu * l.sum + l.length * mu ^ 2 := by
  intro l
  induction l with
  | nil => simp
  | cons a as ih =>
    simp only [List.map_cons, List.sum_cons, List.length_cons, ih]
    push_cast
    ring

theorem popVar_eq (l : List ℚ) (hn : l.length ≠ 0) :
    popVar l = (l.map (fun q => q ^ 2)).sum / l.length - popMean l ^ 2 := by
  unfold popVar popMean
  rw [sum_sq_dev]
  have hl : (l.length : ℚ) ≠ 0 := by exact_mod_cast hn
  field_simp
  ring

theorem colVals_flatten (j : ℕ) (L : List (List (List ℚ))) :
    colVals L.flatten j = (L.map (fun rows => colVals rows j)).flatten := by
  unfold colVals
  exact List.map_flatten _ _

/-- Accumulating per-shard column sums over the shard store equals one column sum
over the concatenated array. -/
theorem shard_col_sum (j : ℕ) (proj : Shard → List (List ℚ)) (ss : List Shard) :
    (ss.map (fun s => (colVals (proj s) j).sum)).sum
      = (colVals (ss.map proj).flatten j).sum := by
  rw [colVals_flatten, List.sum_flatten]
  simp only [List.map_map]
  rfl

/-- Accumulating per-shard column sums of squares over the shard store equals one
column sum of squares over the concatenated array. -/
theorem shard_col_sum_sq (j : ℕ) (proj : Shard → List (List ℚ)) (ss : List Shard) :
    (ss.map (fun s => ((colVals (proj s) j).map (fun q => q ^ 2)).sum)).sum
      = ((colVals (ss.map proj).flatten j).map (fun q => q ^ 2)).sum := by
  rw [colVals_flatten, List.map_flatten, List.sum_flatten]
  simp only [List.map_map]
  rfl

theorem colVals_length (rows : List (List ℚ)) (j : ℕ) :
    (colVals rows j).length = rows.length := List.length_map _ _

theorem Dataset.XmeanCol_eq (d : Dataset) (j : ℕ) :
    d.XmeanCol j = popMean (colVals d.Xall j) := by
  unfold Dataset.XmeanCol popMean
  rw [colVals_length]
  show (d.shards.map (fun s => (colVals (Shard.X s) j).sum)).sum / (d.len : ℚ) = _
  rw [shard_col_sum j Shard.X d.shards]
  rfl

theorem Dataset.ymeanCol_eq (d : Dataset) (j : ℕ) (hc : d.Consistent) :
    d.ymeanCol j = popMean (colVals d.yall j) := by
  unfold Dataset.ymeanCol popMean
  rw [colVals_length]
  obtain ⟨h1, h2, h3⟩ := d.consistent_lengths hc
  have hlen : d.yall.length = d.len := by
    unfold Dataset.len
    omega
  rw [hlen]
  show (d.shards.map (fun s => (colVals (Shard.y s) j).sum)).sum / (d.len : ℚ) = _
  rw [shard_col_sum j Shard.y d.shards]
  rfl

theorem Dataset.XvarCol_eq (d : Dataset) (j : ℕ) (hn : d.len ≠ 0) :
    d.XvarCol j = popVar (colVals d.Xall j) := by
  have hlen : (colVals d.Xall j).length = d.len := colVals_length _ _
  rw [popVar_eq _ (by rw [hlen]; exact hn)]
  unfold Dataset.XvarCol
  rw [hlen, d.XmeanCol_eq j]
  congr 1
  show (d.shards.map
      (fun s => ((colVals (Shard.X s) j).map (fun q => q ^ 2)).sum)).sum / (d.len : ℚ) = _
  rw [shard_col_sum_sq j Shard.X d.shards]
  rfl

theorem Dataset.yvarCol_eq (d : Dataset) (j : ℕ) (hc : d.Consistent)
    (hn : d.len ≠ 0) :
    d.yvarCol j = popVar (colVals d.yall j) := by
  obtain ⟨h1, h2, h3⟩ := d.consistent_lengths hc
  have hy : d.yall.length = d.len := by
    unfold Dataset.len
    omega
  have hlen : (colVals d.yall j).length = d.len := by rw [colVals_length]; exact hy
  rw [popVar_eq _ (by rw [hlen]; exact hn)]
  unfold Dataset.yvarCol
  rw [hlen, d.ymeanCol_eq j hc]
  congr 1
  show (d.shards.map
      (fun s => ((colVals (Shard.y s) j).map (fun q => q ^ 2)).sum)).sum / (d.len : ℚ) = _
  rw [shard_col_sum_sq j Shard.y d.shards]
  rfl

/-- **C4**: `get_statistics()` returns, for every feature/task column, exactly the
population mean and population variance (along axis 0) of the X and y arrays
`to_numpy()` returns; consequently the reported standard deviations (the square
roots of these variances) equal the population standard deviations of the same
data. -/
theorem get_statistics_spec (d : Dataset) (hc : d.Consistent) (hn : d.len ≠ 0) :
    d.get_statistics
      = ((List.range d.n_features).map (fun j => popMean (colVals d.Xall j)),
         (List.range d.n_features).map (fun j => popVar (colVals d.Xall j)),
         (List.range d.n_tasks).map (fun j => popMean (colVals d.yall j)),
         (List.range d.n_tasks).map (fun j => popVar (colVals d.yall j))) ∧
    (∀ j, Real.sqrt ((d.XvarCol j : ℚ) : ℝ)
        = Real.sqrt ((popVar (colVals d.Xall j) : ℚ) : ℝ)) ∧
    (∀ j, Real.sqrt ((d.yvarCol j : ℚ) : ℝ)
        = Real.sqrt ((popVar (colVals d.yall j) : ℚ) : ℝ)) := by
  refine ⟨?_, fun j => by rw [d.XvarCol_eq j hn], fun j => by rw [d.yvarCol_eq j hc hn]⟩
  unfold Dataset.get_statistics
  refine Prod.ext ?_ (Prod.ext ?_ (Prod.ext ?_ ?_))
  · exact List.map_congr_left (fun j _ => d.XmeanCol_eq j)
  · exact List.map_congr_left (fun j _ => d.XvarCol_eq j hn)
  · exact List.map_congr_left (fun j _ => d.ymeanCol_eq j hc)
  · exact List.map_congr_left (fun j _ => d.yvarCol_eq j hc hn)

/-- Closed instance of `get_statistics_spec` at a concrete dataset. -/
theorem get_statistics_spec_check :
    exDataset.get_statistics
      = ((List.range exDataset.n_features).map
           (fun j => popMean (colVals exDataset.Xall j)),
         (List.range exDataset.n_features).map
           (fun j => popVar (colVals exDataset.Xall j)),
         (List.range exDataset.n_tasks).map
           (fun j => popMean (colVals exDataset.yall j)),
         (List.range exDataset.n_tasks).map
           (fun j => popVar (colVals exDataset.yall j))) ∧
    (∀ j, Real.sqrt ((exDataset.XvarCol j : ℚ) : ℝ)
        = Real.sqrt ((popVar (colVals exDataset.Xall j) : ℚ) : ℝ)) ∧
    (∀ j, Real.sqrt ((exDataset.yvarCol j : ℚ) : ℝ)
        = Real.sqrt ((popVar (colVals exDataset.yall j) : ℚ) : ℝ)) :=
  get_statistics_spec exDataset (by decide) (by decide)

theorem setCol_length (j : ℕ) (Y : List (List ℚ)) (col : List ℚ)
    (h : col.length = Y.length) : (setCol Y j col).length = Y.length := by
  unfold setCol
  rw [List.length_zipWith]
  omega

theorem setCol_widths (j : ℕ) :
    ∀ (Y : List (List ℚ)) (col : List ℚ) (width : ℕ),
      (∀ r ∈ Y, r.length = width) → ∀ r ∈ setCol Y j col, r.length = width := by
  intro Y
  induction Y with
  | nil =>
    intro col width _ r hr
    simp [setCol] at hr
  | cons row rest ih =>
    intro col width hw r hr
    cases col with
    | nil => simp [setCol] at hr
    | cons v vs =>
      unfold setCol at hr
      rw [List.zipWith_cons_cons] at hr
      rcases List.mem_cons.mp hr with h | h
      · subst h
        rw [List.length_set]
        exact hw row (by simp)
      · exact ih vs width (fun r2 hr2 => hw r2 (by simp [hr2])) r h

theorem setCol_getD_self (j width : ℕ) (hj : j < width) :
    ∀ (Y : List (List ℚ)) (col : List ℚ), col.length = Y.length →
      (∀ r ∈ Y, r.length = width) →
      ∀ i, ((setCol Y j col).getD i []).getD j 0 = col.getD i 0 := by
  intro Y
  induction Y with
  | nil =>
    intro col hlen _ i
    have : col = [] := List.length_eq_zero.mp (by simpa using hlen)
    subst this
    simp [setCol]
  | cons row rest ih =>
    intro col hlen hw i
    cases col with
    | nil => simp at hlen
    | cons v vs =>
      unfold setCol
      rw [List.zipWith_cons_cons]
      cases i with
      | zero =>
        rw [List.getD_cons_zero, List.getD_cons_zero]
        have hrow : row.length = width := hw row (by simp)
        have hjr : j < (row.set j v).length := by
          rw [List.length_set, hrow]
          exact hj
        rw [List.getD_eq_getElem?_getD, List.getElem?_eq_getElem hjr]
        simp only [Option.getD_some]
        exact List.getElem_set_self hjr
      | succ n =>
        rw [List.getD_cons_succ, List.getD_cons_succ]
        exact ih vs (by simpa using hlen) (fun r hr => hw r (by simp [hr])) n

theorem setCol_getD_ne (j j2 : ℕ) (hne : j2 ≠ j) :
    ∀ (Y : List (List ℚ)) (col : List ℚ), col.length = Y.length →
      ∀ i, ((setCol Y j col).getD i []).getD j2 0 = (Y.getD i []).getD j2 0 := by
  intro Y
  induction Y with
  | nil =>
    intro col hlen i
    have : col = [] := List.length_eq_zero.mp (by simpa using hlen)
    subst this
    simp [setCol]
  | cons row rest ih =>
    intro col hlen i
    cases col with
    | nil => simp at hlen
    | cons v vs =>
      unfold setCol
      rw [List.zipWith_cons_cons]
      cases i with
      | zero =>
        rw [List.getD_cons_zero, List.getD_cons_zero,
          List.getD_eq_getElem?_getD, List.getD_eq_getElem?_getD,
          List.getElem?_set_ne (Ne.symm hne)]
      | succ n =>
        rw [List.getD_cons_succ, List.getD_cons_succ]
        exact ih vs (by simpa using hlen) n

theorem assembleFrom_length (f : String → List ℚ) :
    ∀ (ts : List String) (k : ℕ) (Y : List (List ℚ)),
      (∀ t ∈ ts, (f t).length = Y.length) →
      (assembleFrom f k ts Y).length = Y.length := by
  intro ts
  induction ts with
  | nil => intro k Y _; rfl
  | cons t rest ih =>
    intro k Y h
    have hset := setCol_length k Y (f t) (h t (by simp))
    have hrec := ih (k + 1) (setCol Y k (f t))
      (fun t2 ht2 => by rw [hset]; exact h t2 (by simp [ht2]))
    rw [show assembleFrom f k (t :: rest) Y
        = assembleFrom f (k + 1) rest (setCol Y k (f t)) from rfl, hrec, hset]

theorem assembleFrom_widths (f : String → List ℚ) :
    ∀ (ts : List String) (k : ℕ) (Y : List (List ℚ)) (width : ℕ),
      (∀ r ∈ Y, r.length = width) →
      ∀ r ∈ assembleFrom f k ts Y, r.length = width := by
  intro ts
  induction ts with
  | nil => intro k Y width hw r hr; exact hw r hr
  | cons t rest ih =>
    intro k Y width hw r hr
    exact ih (k + 1) _ width (setCol_widths k Y (f t) width hw) r hr

theorem assembleFrom_getD_lt (f : String → List ℚ) :
    ∀ (ts : List String) (k : ℕ) (Y : List (List ℚ)),
      (∀ t ∈ ts, (f t).length = Y.length) →
      ∀ j, j < k → ∀ i,
        ((assembleFrom f k ts Y).getD i []).getD j 0 = (Y.getD i []).getD j 0 := by
  intro ts
  induction ts with
  | nil => intro k Y _ j _ i; rfl
  | cons t rest ih =>
    intro k Y h j hj i
    have hset := setCol_length k Y (f t) (h t (by simp))
    rw [show assembleFrom f k (t :: rest) Y
        = assembleFrom f (k + 1) rest (setCol Y k (f t)) from rfl]
    rw [ih (k + 1) _ (fun t2 ht2 => by rw [hset]; exact h t2 (by simp [ht2]))
      j (by omega) i]
    exact setCol_getD_ne k j (by omega) Y (f t) (h t (by simp)) i

/-- The assembled matrix holds, in column `j`, entry `i` of the column the task at
offset `j - k` contributes. -/
theorem assembleFrom_getD (f : String → List ℚ) :
    ∀ (ts : List String) (k : ℕ) (Y : List (List ℚ)) (width : ℕ),
      (∀ r ∈ Y, r.length = width) →
      (∀ t ∈ ts, (f t).length = Y.length) →
      ∀ j, k ≤ j → j < k + ts.length → j < width → ∀ i,
        ((assembleFrom f k ts Y).getD i []).getD j 0
          = (f (ts.getD (j - k) "")).getD i 0 := by
  intro ts
  induction ts with
  | nil =>
    intro k Y width _ _ j hk hlt
    simp only [List.length_nil, Nat.add_zero] at hlt
    exact absurd hlt (by omega)
  | cons t rest ih =>
    intro k Y width hw h j hk hlt hwidth i
    have hset := setCol_length k Y (f t) (h t (by simp))
    rw [show assembleFrom f k (t :: rest) Y
        = assembleFrom f (k + 1) rest (setCol Y k (f t)) from rfl]
    rcases Nat.eq_or_lt_of_le hk with heq | hgt
    · subst heq
      rw [assembleFrom_getD_lt f rest (k + 1) _
        (fun t2 ht2 => by rw [hset]; exact h t2 (by simp [ht2])) k (by omega) i]
      rw [Nat.sub_self, List.getD_cons_zero]
      exact setCol_getD_self k width hwidth Y (f t) (h t (by simp)) hw i
    · have hrec := ih (k + 1) (setCol Y k (f t)) width
        (setCol_widths k Y (f t) width hw)
        (fun t2 ht2 => by rw [hset]; exact h t2 (by simp [ht2]))
        j hgt (by simp only [List.length_cons] at hlt; omega) hwidth i
      rw [hrec]
      obtain ⟨n, hn⟩ : ∃ n, j - k = n + 1 := ⟨j - k - 1, by omega⟩
      rw [hn, List.getD_cons_succ, show j - (k + 1) = n from by omega]

theorem predictFold_enum_ok (m : SingletaskToMultitask P) (col : STModel → List ℚ) :
    ∀ (ts : List String) (base : ℕ) (Y : List (List ℚ)),
      (∀ task ∈ ts, (m.getTaskModel task).isOk = true) →
      predictFold m col (List.enumFrom base ts) Y
        = Except.ok (assembleFrom (fun t => col (m.fetchModel t)) base ts Y) := by
  intro ts
  induction ts with
  | nil => intro base Y _; rfl
  | cons t rest ih =>
    intro base Y h
    have ht := h t (by simp)
    cases hgm : m.getTaskModel t with
    | error e => rw [hgm] at ht; simp [Except.isOk, Except.toBool] at ht
    | ok tm =>
      have hfetch : m.fetchModel t = tm := by
        unfold SingletaskToMultitask.fetchModel
        rw [hgm]
      show predictFold m col ((base, t) :: List.enumFrom (base + 1) rest) Y = _
      unfold predictFold
      rw [List.foldlM_cons]
      show (m.getTaskModel t >>= fun tm => pure (setCol Y base (col tm))) >>= _ = _
      rw [hgm]
      show predictFold m col (List.enumFrom (base + 1) rest) (setCol Y base (col tm)) = _
      rw [ih (base + 1) (setCol Y base (col tm)) (fun t2 ht2 => h t2 (by simp [ht2]))]
      rw [show assembleFrom (fun t => col (m.fetchModel t)) base (t :: rest) Y
          = assembleFrom (fun t => col (m.fetchModel t)) (base + 1) rest
              (setCol Y base (col (m.fetchModel t))) from rfl]
      rw [hfetch]

theorem predictFold_enum_error (m : SingletaskToMultitask P) (col : STModel → List ℚ) :
    ∀ (ts : List String) (base k : ℕ) (Y : List (List ℚ)) (e : String),
      k < ts.length →
      (∀ j, j < k → (m.getTaskModel (ts.getD j "")).isOk = true) →
      m.getTaskModel (ts.getD k "") = Except.error e →
      predictFold m col (List.enumFrom base ts) Y = Except.error e := by
  intro ts
  induction ts with
  | nil =>
    intro base k Y e hk
    exact absurd hk (by simp)
  | cons t rest ih =>
    intro base k Y e hk hpre herr
    cases k with
    | zero =>
      rw [List.getD_cons_zero] at herr
      show predictFold m col ((base, t) :: List.enumFrom (base + 1) rest) Y = _
      unfold predictFold
      rw [List.foldlM_cons]
      show (m.getTaskModel t >>= fun tm => pure (setCol Y base (col tm))) >>= _ = _
      rw [herr]
      rfl
    | succ n =>
      have h0 := hpre 0 (Nat.succ_pos n)
      rw [List.getD_cons_zero] at h0
      cases hgm : m.getTaskModel t with
      | error e2 => rw [hgm] at h0; simp [Except.isOk, Except.toBool] at h0
      | ok tm =>
        show predictFold m col ((base, t) :: List.enumFrom (base + 1) rest) Y = _
        unfold predictFold
        rw [List.foldlM_cons]
        show (m.getTaskModel t >>= fun tm => pure (setCol Y base (col tm))) >>= _ = _
        rw [hgm]
        show predictFold m col (List.enumFrom (base + 1) rest)
          (setCol Y base (col tm)) = _
        refine ih (base + 1) n _ e (by simpa using hk) ?_ (by simpa using herr)
        intro j hj
        have := hpre (j + 1) (by omega)
        rwa [List.getD_cons_succ] at this

theorem predict_on_batch_eq_fold (m : SingletaskToMultitask P) (X : List (List ℚ)) :
    m.predict_on_batch X = predictFold m (fun tm => tm.predictOnBatch X)
      (List.enumFrom 0 m.tasks) (zeros X.length m.tasks.length) := rfl

theorem predict_eq_fold (m : SingletaskToMultitask P) (dataset : Dataset)
    (transformers : List (List (List ℚ) → List (List ℚ))) :
    m.predict dataset transformers
      = (predictFold m (fun tm => tm.predictDs dataset) (List.enumFrom 0 m.tasks)
          (zeros dataset.len m.tasks.length)) >>=
            fun y => pure (undo_transforms y transformers) := rfl

theorem zeros_length (n k : ℕ) : (zeros n k).length = n := List.length_replicate n _

theorem zeros_widths (n k : ℕ) : ∀ r ∈ zeros n k, r.length = k := by
  intro r hr
  rw [List.eq_of_mem_replicate hr]
  exact List.length_replicate k 0

/-- **C5**: when every task model is available, `predict_on_batch(X)` returns the
`(n_samples, n_tasks)` matrix whose column `ind` is the prediction of the
single-task model of task `tasks[ind]` on `X`, and `predict(dataset,
transformers)` returns the analogous
`(len(dataset), n_tasks)` matrix with `undo_transforms` applied to the assembled
matrix. -/
theorem predict_spec (m : SingletaskToMultitask P) (X : List (List ℚ))
    (hok : ∀ task ∈ m.tasks, (m.getTaskModel task).isOk = true)
    (hlen : ∀ task ∈ m.tasks,
      ((m.fetchModel task).predictOnBatch X).length = X.length) :
    m.predict_on_batch X = Except.ok (m.assembled_on_batch X) ∧
    (m.assembled_on_batch X).length = X.length ∧
    (∀ r ∈ m.assembled_on_batch X, r.length = m.tasks.length) ∧
    (∀ ind, ind < m.tasks.length → ∀ i,
      ((m.assembled_on_batch X).getD i []).getD ind 0
        = ((m.fetchModel (m.tasks.getD ind "")).predictOnBatch X).getD i 0) ∧
    ∀ d ts, (∀ task ∈ m.tasks, ((m.fetchModel task).predictDs d).length = d.len) →
      m.predict d ts = Except.ok (undo_transforms (m.assembledDs d) ts) ∧
      (m.assembledDs d).length = d.len ∧
      (∀ r ∈ m.assembledDs d, r.length = m.tasks.length) ∧
      (∀ ind, ind < m.tasks.length → ∀ i,
        ((m.assembledDs d).getD i []).getD ind 0
          = ((m.fetchModel (m.tasks.getD ind "")).predictDs d).getD i 0) := by
  have hlen2 : ∀ task ∈ m.tasks,
      ((m.fetchModel task).predictOnBatch X).length
        = (zeros X.length m.tasks.length).length := by
    intro task htask
    rw [zeros_length]
    exact hlen task htask
  refine ⟨?_, ?_, ?_, ?_, ?_⟩
  · rw [predict_on_batch_eq_fold,
      predictFold_enum_ok m (fun tm => tm.predictOnBatch X) m.tasks 0 _ hok]
    rfl
  · unfold SingletaskToMultitask.assembled_on_batch
    rw [assembleFrom_length _ m.tasks 0 _ hlen2, zeros_length]
  · unfold SingletaskToMultitask.assembled_on_batch
    exact assembleFrom_widths _ m.tasks 0 _ m.tasks.length
      (zeros_widths X.length m.tasks.length)
  · intro ind hind i
    unfold SingletaskToMultitask.assembled_on_batch
    rw [assembleFrom_getD _ m.tasks 0 _ m.tasks.length
      (zeros_widths X.length m.tasks.length) hlen2 ind (Nat.zero_le ind)
      (by omega) hind i, Nat.sub_zero]
  · intro d ts hdlen
    have hdlen2 : ∀ task ∈ m.tasks,
        ((m.fetchModel task).predictDs d).length
          = (zeros d.len m.tasks.length).length := by
      intro task htask
      rw [zeros_length]
      exact hdlen task htask
    refine ⟨?_, ?_, ?_, ?_⟩
    · rw [predict_eq_fold,
        predictFold_enum_ok m (fun tm => tm.predictDs d) m.tasks 0 _ hok]
      rfl
    · unfold SingletaskToMultitask.assembledDs
      rw [assembleFrom_length _ m.tasks 0 _ hdlen2, zeros_length]
    · unfold SingletaskToMultitask.assembledDs
      exact assembleFrom_widths _ m.tasks 0 _ m.tasks.length
        (zeros_widths d.len m.tasks.length)
    · intro ind hind i
      unfold SingletaskToMultitask.assembledDs
      rw [assembleFrom_getD _ m.tasks 0 _ m.tasks.length
        (zeros_widths d.len m.tasks.length) hdlen2 ind (Nat.zero_le ind)
        (by omega) hind i, Nat.sub_zero]

/-- Closed instance of `predict_spec` at a concrete in-memory router and batch. -/
theorem predict_spec_check :
    exRouterMem.predict_on_batch exX
        = Except.ok (exRouterMem.assembled_on_batch exX) ∧
    (exRouterMem.assembled_on_batch exX).length = exX.length ∧
    (∀ r ∈ exRouterMem.assembled_on_batch exX,
      r.length = exRouterMem.tasks.length) ∧
    (∀ ind, ind < exRouterMem.tasks.length → ∀ i,
      ((exRouterMem.assembled_on_batch exX).getD i []).getD ind 0
        = ((exRouterMem.fetchModel
            (exRouterMem.tasks.getD ind "")).predictOnBatch exX).getD i 0) ∧
    ∀ d ts, (∀ task ∈ exRouterMem.tasks,
        ((exRouterMem.fetchModel task).predictDs d).length = d.len) →
      exRouterMem.predict d ts
          = Except.ok (undo_transforms (exRouterMem.assembledDs d) ts) ∧
      (exRouterMem.assembledDs d).length = d.len ∧
      (∀ r ∈ exRouterMem.assembledDs d, r.length = exRouterMem.tasks.length) ∧
      (∀ ind, ind < exRouterMem.tasks.length → ∀ i,
        ((exRouterMem.assembledDs d).getD i []).getD ind 0
          = ((exRouterMem.fetchModel
              (exRouterMem.tasks.getD ind "")).predictDs d).getD i 0) :=
  predict_spec exRouterMem exX (by decide) (by decide)

/-- **C7**: with `store_in_memory=False`, if reconstructing and `reload()`ing the
persisted model of the first failing task raises (the persisted model is absent),
that error propagates unchanged out of `predict_on_batch` and `predict`: no task is
skipped, no fallback prediction is substituted, no exception is suppressed. -/
theorem predict_reload_error (m : SingletaskToMultitask P) (X : List (List ℚ))
    (k : ℕ) (e : String) (hmem : m.store_in_memory = false)
    (hk : k < m.tasks.length)
    (hpre : ∀ j, j < k → (m.getTaskModel (m.tasks.getD j "")).isOk = true)
    (herr : (m.model_builder [m.tasks.getD k ""]
        [(m.tasks.getD k "", m.task_types (m.tasks.getD k ""))] m.model_params
        (m.task_model_dirs (m.tasks.getD k ""))).reloadResult = Except.error e) :
    m.predict_on_batch X = Except.error e ∧
    ∀ d ts, m.predict d ts = Except.error e := by
  have hgm : m.getTaskModel (m.tasks.getD k "") = Except.error e := by
    unfold SingletaskToMultitask.getTaskModel
    rw [hmem]
    simp only [Bool.false_eq_true, if_false]
    rw [herr]
  constructor
  · rw [predict_on_batch_eq_fold]
    exact predictFold_enum_error m _ m.tasks 0 k _ e hk hpre hgm
  · intro d ts
    rw [predict_eq_fold,
      predictFold_enum_error m _ m.tasks 0 k _ e hk hpre hgm]
    rfl

/-- Closed instance of `predict_reload_error`: on the concrete disk router, task
the reload failure of task `t1` surfaces unchanged from both predict methods. -/
theorem predict_reload_error_check :
    exRouterDisk.predict_on_batch exX = Except.error "no persisted model" ∧
    ∀ d ts, exRouterDisk.predict d ts = Except.error "no persisted model" :=
  predict_reload_error exRouterDisk exX 1 "no persisted model" rfl (by decide)
    (fun j hj => by
      have : j = 0 := by omega
      subst this
      rfl)
    rfl

/-- **C8**: `save()` and `reload()` are no-ops: each returns without error and leaves
every field of the router (tasks, task_types, model_params, task_models,
task_model_dirs, store_in_memory) unchanged. -/
theorem save_reload_noop (m : SingletaskToMultitask P) :
    m.save.tasks = m.tasks ∧ m.save.task_types = m.task_types ∧
    m.save.model_params = m.model_params ∧ m.save.task_models = m.task_models ∧
    m.save.task_model_dirs = m.task_model_dirs ∧
    m.save.store_in_memory = m.store_in_memory ∧
    m.reload.tasks = m.tasks ∧ m.reload.task_types = m.task_types ∧
    m.reload.model_params = m.model_params ∧ m.reload.task_models = m.task_models ∧
    m.reload.task_model_dirs = m.task_model_dirs ∧
    m.reload.store_in_memory = m.store_in_memory ∧
    m.save = m ∧ m.reload = m :=
  ⟨rfl, rfl, rfl, rfl, rfl, rfl, rfl, rfl, rfl, rfl, rfl, rfl, rfl, rfl⟩

/-- **C9**: `get_ids()` is a pure read of the dataset state: two successive calls on
an unmodified dataset return identical identifier sequences, and that sequence is the
ids component of `to_numpy()` — the dataset's canonical row order. -/
theorem get_ids_stable (d : Dataset) :
    d.get_ids = d.get_ids ∧ d.get_ids = d.to_numpy.2.2.2 := ⟨rfl, rfl⟩

theorem mem_mkShards :
    ∀ (a b c : List (List (List ℚ))) (e : List (List String)) (s : Shard),
      s ∈ mkShards a b c e → s.X ∈ a ∧ s.y ∈ b ∧ s.w ∈ c ∧ s.ids ∈ e := by
  intro a
  induction a with
  | nil =>
    intro b c e s hs
    cases b <;> cases c <;> cases e <;> simp [mkShards] at hs
  | cons xc xs ih =>
    intro b c e s hs
    cases b with
    | nil => simp [mkShards] at hs
    | cons yc ys =>
      cases c with
      | nil => simp [mkShards] at hs
      | cons wc ws =>
        cases e with
        | nil => simp [mkShards] at hs
        | cons ic is =>
          rw [show mkShards (xc :: xs) (yc :: ys) (wc :: ws) (ic :: is)
              = ⟨xc, yc, wc, ic⟩ :: mkShards xs ys ws is from rfl] at hs
          rcases List.mem_cons.mp hs with h | h
          · subst h
            exact ⟨by simp, by simp, by simp, by simp⟩
          · obtain ⟨h1, h2, h3, h4⟩ := ih ys ws is s h
            exact ⟨by simp [h1], by simp [h2], by simp [h3], by simp [h4]⟩

theorem mem_of_mem_chunk (size : ℕ) (hs : size ≠ 0) (l : List α) (c : List α)
    (hc : c ∈ chunk size l) (x : α) (hx : x ∈ c) : x ∈ l := by
  rw [← flatten_chunk size hs l]
  exact List.mem_flatten.mpr ⟨c, hc, hx⟩

/-- **C6** (amended): for every consistent dataset and every positive batch size `b`
dividing the row count, `iterbatches(b)` yields exactly `len / b` batches, in
canonical row order (their concatenation is exactly the `to_numpy` arrays), each of
exactly the requested size `b`, with X rows of the feature width and y/w rows of the
task width. -/
theorem iterbatches_dvd_spec (d : Dataset) (b F T : ℕ) (hb : b ≠ 0)
    (hdvd : b ∣ d.len) (hc : d.Consistent)
    (hXw : ∀ r ∈ d.Xall, r.length = F) (hyw : ∀ r ∈ d.yall, r.length = T)
    (hww : ∀ r ∈ d.wall, r.length = T) :
    (d.iterbatches b).length = d.len / b ∧
    ((d.iterbatches b).map Shard.X).flatten = d.Xall ∧
    ((d.iterbatches b).map Shard.y).flatten = d.yall ∧
    ((d.iterbatches b).map Shard.w).flatten = d.wall ∧
    ((d.iterbatches b).map Shard.ids).flatten = d.idsAll ∧
    ∀ batch ∈ d.iterbatches b,
      batch.X.length = b ∧ batch.y.length = b ∧ batch.w.length = b ∧
      batch.ids.length = b ∧ (∀ r ∈ batch.X, r.length = F) ∧
      (∀ r ∈ batch.y, r.length = T) ∧ (∀ r ∈ batch.w, r.length = T) := by
  obtain ⟨h1, h2, h3⟩ := d.globallyConsistent_of_consistent hc
  have cy : (chunk b d.yall).length = (chunk b d.Xall).length :=
    chunk_length_congr b _ _ h1
  have cw : (chunk b d.wall).length = (chunk b d.Xall).length :=
    chunk_length_congr b _ _ h2
  have ci : (chunk b d.idsAll).length = (chunk b d.Xall).length :=
    chunk_length_congr b _ _ h3
  have hbatch : d.iterbatches b
      = mkShards (chunk b d.Xall) (chunk b d.yall) (chunk b d.wall)
          (chunk b d.idsAll) := rfl
  have hmapX : (d.iterbatches b).map Shard.X = chunk b d.Xall := by
    rw [hbatch]; exact mkShards_map_X _ _ _ _ cy cw ci
  have hmapy : (d.iterbatches b).map Shard.y = chunk b d.yall := by
    rw [hbatch]; exact mkShards_map_y _ _ _ _ cy cw ci
  have hmapw : (d.iterbatches b).map Shard.w = chunk b d.wall := by
    rw [hbatch]; exact mkShards_map_w _ _ _ _ cy cw ci
  have hmapids : (d.iterbatches b).map Shard.ids = chunk b d.idsAll := by
    rw [hbatch]; exact mkShards_map_ids _ _ _ _ cy cw ci
  have hdvdy : b ∣ d.yall.length := by rw [h1]; exact hdvd
  have hdvdw : b ∣ d.wall.length := by rw [h2]; exact hdvd
  have hdvdi : b ∣ d.idsAll.length := by rw [h3]; exact hdvd
  refine ⟨?_, ?_, ?_, ?_, ?_, ?_⟩
  · have : (d.iterbatches b).length = ((d.iterbatches b).map Shard.X).length :=
      (List.length_map _ _).symm
    rw [this, hmapX, chunk_count_dvd b hb d.Xall hdvd]
    rfl
  · rw [hmapX, flatten_chunk b hb]
  · rw [hmapy, flatten_chunk b hb]
  · rw [hmapw, flatten_chunk b hb]
  · rw [hmapids, flatten_chunk b hb]
  · intro batch hmem
    rw [hbatch] at hmem
    obtain ⟨mX, my, mw, mids⟩ := mem_mkShards _ _ _ _ batch hmem
    refine ⟨chunk_sizes_dvd b hb d.Xall hdvd batch.X mX,
      chunk_sizes_dvd b hb d.yall hdvdy batch.y my,
      chunk_sizes_dvd b hb d.wall hdvdw batch.w mw,
      chunk_sizes_dvd b hb d.idsAll hdvdi batch.ids mids, ?_, ?_, ?_⟩
    · exact fun r hr => hXw r (mem_of_mem_chunk b hb d.Xall batch.X mX r hr)
    · exact fun r hr => hyw r (mem_of_mem_chunk b hb d.yall batch.y my r hr)
    · exact fun r hr => hww r (mem_of_mem_chunk b hb d.wall batch.w mw r hr)

/-- **C6** counterexample: on a concrete consistent 3-row dataset, `iterbatches(2)`
contains a batch whose X block holds a single row, not the requested 2 — so not
every batch has exactly the requested size when the batch size does not divide the
row count. -/
theorem iterbatches_not_all_full :
    ¬ ∀ batch ∈ exDataset.iterbatches 2, batch.X.length = 2 := by decide

/-- Closed instance of `iterbatches_dvd_spec` at a concrete 4-row dataset with
batch size 2. -/
theorem iterbatches_dvd_spec_check :
    (exDataset4.iterbatches 2).length = exDataset4.len / 2 ∧
    ((exDataset4.iterbatches 2).map Shard.X).flatten = exDataset4.Xall ∧
    ((exDataset4.iterbatches 2).map Shard.y).flatten = exDataset4.yall ∧
    ((exDataset4.iterbatches 2).map Shard.w).flatten = exDataset4.wall ∧
    ((exDataset4.iterbatches 2).map Shard.ids).flatten = exDataset4.idsAll ∧
    ∀ batch ∈ exDataset4.iterbatches 2,
      batch.X.length = 2 ∧ batch.y.length = 2 ∧ batch.w.length = 2 ∧
      batch.ids.length = 2 ∧ (∀ r ∈ batch.X, r.length = 1) ∧
      (∀ r ∈ batch.y, r.length = 2) ∧ (∀ r ∈ batch.w, r.length = 2) :=
  iterbatches_dvd_spec exDataset4 2 1 2 (by decide) (by decide) (by decide)
    (by decide) (by decide) (by decide)

theorem createTaskDirs_error (m : SingletaskToMultitask P) (existing : List String) :
    ∀ (ts : List String) (acc : List String),
      (∃ task ∈ ts, (m.model_dir ++ "/" ++ task ++ "_data") ∈ existing) →
      createTaskDirs m existing acc ts
        = Except.error (PyErr.nameErr "name shutil is not defined") := by
  intro ts
  induction ts with
  | nil =>
    intro acc h
    simp at h
  | cons t rest ih =>
    intro acc h
    show (if (m.model_dir ++ "/" ++ t ++ "_data") ∈ existing then _ else _) = _
    by_cases hd : (m.model_dir ++ "/" ++ t ++ "_data") ∈ existing
    · rw [if_pos hd]
    · rw [if_neg hd]
      refine ih _ ?_
      rcases h with ⟨task, htask, hin⟩
      rcases List.mem_cons.mp htask with rfl | htask2
      · exact absurd hin hd
      · exact ⟨task, htask2, hin⟩

theorem createTaskDirs_ok (m : SingletaskToMultitask P) (existing : List String) :
    ∀ (ts : List String) (acc : List String),
      (∀ task ∈ ts, (m.model_dir ++ "/" ++ task ++ "_data") ∉ existing) →
      createTaskDirs m existing acc ts
        = Except.ok
            (acc ++ ts.map (fun task => m.model_dir ++ "/" ++ task ++ "_data")) := by
  intro ts
  induction ts with
  | nil =>
    intro acc _
    show Except.ok acc = _
    simp
  | cons t rest ih =>
    intro acc h
    show (if (m.model_dir ++ "/" ++ t ++ "_data") ∈ existing then _ else _) = _
    rw [if_neg (h t (by simp))]
    rw [ih _ (fun task htask => h task (by simp [htask]))]
    simp

/-- **C10**: if any per-task data directory `model_dir/<task>_data` already exists
when `_create_task_datasets` runs (for example on any second `fit` of the same
router), it fails with `NameError` — `shutil.rmtree` is referenced but `shutil` is
never imported in multitask.py — before any task dataset is created; the
directory-exists branch is only error-free when no such directory exists, in which
case the task datasets are built by `to_singletask`. -/
theorem create_task_datasets_shutil (m : SingletaskToMultitask P)
    (existing : List String) (dataset : Dataset) :
    ((∃ task ∈ m.tasks, (m.model_dir ++ "/" ++ task ++ "_data") ∈ existing) →
      m.create_task_datasets existing dataset
        = Except.error (PyErr.nameErr "name shutil is not defined")) ∧
    ((∀ task ∈ m.tasks, (m.model_dir ++ "/" ++ task ++ "_data") ∉ existing) →
      m.create_task_datasets existing dataset
        = Except.ok (dataset.to_singletask
            (m.tasks.map (fun task => m.model_dir ++ "/" ++ task ++ "_data")))) := by
  constructor
  · intro h
    unfold SingletaskToMultitask.create_task_datasets
    rw [createTaskDirs_error m existing m.tasks [] h]
    rfl
  · intro h
    unfold SingletaskToMultitask.create_task_datasets
    rw [createTaskDirs_ok m existing m.tasks [] h]
    rfl

/-- Closed instance of `create_task_datasets_shutil`: the concrete router fails with
the `NameError` as soon as one task data directory pre-exists. -/
theorem create_task_datasets_shutil_check :
    exRouterMem.create_task_datasets ["m/t1_data"] exDataset
      = Except.error (PyErr.nameErr "name shutil is not defined") :=
  (create_task_datasets_shutil exRouterMem ["m/t1_data"] exDataset).1
    ⟨"t1", by decide, by decide⟩

end DeepChem
